import Mathlib

/-!
Verification development for the Faro Fino News bot (`src/bot.py`, v3.0.1).

Shallow embedding conventions:

* Python strings are modelled as lists of Unicode code points (`Str := List Nat`).
  `str.upper()` / `str.lower()` are modelled on the ASCII letter range, which is the
  range exercised by the program's keyword handling.
* Python `set` objects are modelled as `Finset Str`.
* Timestamps are modelled as integers measured in days, so that
  `datetime.now(TZ) - timedelta(days=n)` becomes `now - n`; only the order structure
  of datetimes is relevant to the code under verification.
* Network effects (`fetch_news_chunk`) and delivery outcomes (`bot.send_message`
  raising `TelegramError`) are oracles passed in as function parameters: `fetch`
  maps a keyword chunk to the parsed article list it yields, `sendOk` tells whether
  the send of a given article succeeds.  All data-flow around those effects is
  translated from the source.
* Exceptions that the source catches and swallows (`load_config`'s
  `json.JSONDecodeError`/`IOError`, the per-article `TelegramError`) are modelled by
  total functions returning the fallback value the handler produces.
-/

/-- A Python string, as its list of Unicode code points. -/
abbrev Str := List Nat

/-- `str.upper()` on one code point (ASCII range, the range used by the bot). -/
def upperChar (c : Nat) : Nat := if 97 ≤ c ∧ c ≤ 122 then c - 32 else c

/-- `str.lower()` on one code point (ASCII range). -/
def lowerChar (c : Nat) : Nat := if 65 ≤ c ∧ c ≤ 90 then c + 32 else c

/-- `s.upper()`. -/
def upperStr (s : Str) : Str := s.map upperChar

/-- `s.lower()`. -/
def lowerStr (s : Str) : Str := s.map lowerChar

/-- Python whitespace (the characters stripped by `str.strip()`). -/
def isPySpace (c : Nat) : Bool := c = 32 || c = 9 || c = 10 || c = 13 || c = 11 || c = 12

/-- `s.strip()`. -/
def pyStrip (s : Str) : Str :=
  ((s.dropWhile isPySpace).reverse.dropWhile isPySpace).reverse

/-- `s.startswith(pat)` (list-level). -/
def startsWithStr (pat s : Str) : Bool :=
  match pat, s with
  | [], _ => true
  | _ :: _, [] => false
  | p :: ps, c :: t => p == c && startsWithStr ps t

/-- Python's substring test `pat in hay`. -/
def inStr (pat hay : Str) : Bool :=
  (List.range (hay.length + 1)).any (fun i => startsWithStr pat (hay.drop i))

/-- Fuel-driven body of `replaceStr`.  Each step consumes at least one character
of the scanned string (the matched pattern is nonempty), so fuel equal to the
string's length is always enough; the fuel only makes the recursion structural. -/
def replaceStrAux (pat rep : Str) : Nat → Str → Str
  | _, [] => []
  | 0, s => s
  | fuel + 1, c :: t =>
    if startsWithStr pat (c :: t) = true ∧ pat ≠ [] then
      rep ++ replaceStrAux pat rep fuel ((c :: t).drop pat.length)
    else
      c :: replaceStrAux pat rep fuel t

/-- `s.replace(pat, rep)` for a nonempty pattern: left-to-right, non-overlapping
replacement (the program only replaces the four-character patterns `" OU "` and
`" OR "`). -/
def replaceStr (pat rep s : Str) : Str := replaceStrAux pat rep s.length s

/-- `s.split(sep)` for a single-character separator, keeping empty pieces
(Python semantics: splitting the empty string yields `[""]`). -/
def splitChar (sep : Nat) (s : Str) : List Str :=
  match s with
  | [] => [[]]
  | c :: t =>
    let r := splitChar sep t
    if c = sep then [] :: r
    else
      match r with
      | [] => [[c]]
      | h :: tl => (c :: h) :: tl

/-! ## Constants of `bot.py` (lines 23-25) -/

def MONITORAMENTO_INTERVAL : Nat := 300
def DIAS_FILTRO_NOTICIAS : Int := 3
def CHUNK_SIZE_KEYWORDS : Nat := 5

/-! ## Data model -/

/-- A parsed feed item (`fetch_news_chunk`, line 71): `{'title': ..., 'link': ...,
'source': ..., 'date': pub_date}`.  `fetch_news_chunk` always sets `date` to a
parsed datetime (items that fail to parse are skipped at line 72), so the date is
total here; Python datetimes are always truthy, so the `article['date'] and ...`
guard at line 99 reduces to the comparison itself. -/
structure Article where
  title : Str
  link : Str
  source : Str
  date : Int
deriving DecidableEq

/-- An article after the post-filter tagged it with `article['found_keywords'] =
list(set(found_kws))` (line 101); the `set` is kept as a `Finset`. -/
structure ArticleK where
  art : Article
  found : Finset Str
deriving DecidableEq

/-- The configuration document (`DEFAULT_CONFIG`, line 29, and the JSON file).
`history` is the in-memory `set` produced by `load_config`. -/
structure Config where
  owner_id : Option Int
  notification_chat_id : Option Int
  keywords : List Str
  monitoring_on : Bool
  history : Finset Str
deriving DecidableEq

/-- Python truthiness of an optional integer field (`None` and `0` are falsy),
used by `if not owner_id`, `if ... and notification_id`, etc. -/
def truthyOpt : Option Int → Bool
  | none => false
  | some x => x != 0

/-! ## Dedup & filter pipeline (`process_news`, lines 77-112) -/

/-- `keyword_chunks = [keywords[i:i + CHUNK_SIZE_KEYWORDS] for i in range(0, len(keywords), CHUNK_SIZE_KEYWORDS)]`
(line 87), with `CHUNK_SIZE_KEYWORDS = 5` unrolled into the patterns so the
recursion is structural: successive slices of five keywords, the last slice
possibly shorter. -/
def keywordChunks : List Str → List (List Str)
  | [] => []
  | a :: b :: c :: d :: e :: rest => [a, b, c, d, e] :: keywordChunks rest
  | l => [l]

/-- One execution of `all_found_articles[article['link']] = article` (line 92) on a
Python dict held as an insertion-ordered association list keyed by `link`:
an existing key keeps its position but gets the new value; a new key is appended. -/
def dictInsert (m : List Article) (a : Article) : List Article :=
  if m.any (fun b => b.link == a.link) then
    m.map (fun b => if b.link == a.link then a else b)
  else
    m ++ [a]

/-- The chunk-merge loop of lines 90-92: for each chunk's results in order, write
each article into the dict keyed by its link (last write wins).
`found_news = list(all_found_articles.values())` (line 95) is the resulting list. -/
def mergeByLink (chunkResults : List (List Article)) : List Article :=
  chunkResults.foldl (fun m chunk => chunk.foldl dictInsert m) []

/-- `found_kws = [k for k in keywords if k.lower() in f"{article['title']} {article['source']}".lower()]` (line 100). -/
def matchedKws (keywords : List Str) (a : Article) : List Str :=
  keywords.filter (fun k => inStr (lowerStr k) (lowerStr (a.title ++ 32 :: a.source)))

/-- One iteration of the filter loop (lines 98-103) over the running pair
`(new_articles, history)`: skip the article if its link is in history or its date
is older than the limit; otherwise keep it (with its recomputed keywords) and add
its link to history only when at least one keyword matched. -/
def filterStep (keywords : List Str) (limit : Int)
    (acc : List ArticleK × Finset Str) (a : Article) : List ArticleK × Finset Str :=
  if a.link ∈ acc.2 ∨ a.date < limit then acc
  else
    let found_kws := matchedKws keywords a
    if found_kws = [] then acc
    else (acc.1 ++ [⟨a, found_kws.toFinset⟩], insert a.link acc.2)

/-- `sorted(articles, key=lambda x: x['date'], reverse=True)` (line 116); the
relation keeps the stable newest-first order of Python's sort. -/
def sortByDateDesc (arts : List ArticleK) : List ArticleK :=
  arts.insertionSort (fun x y => y.art.date ≤ x.art.date)

/-- `send_notifications` (lines 114-139): every article is attempted in
newest-first order; a `TelegramError` (modelled by `sendOk a = false`) is logged
and the loop continues, so the attempt log always covers every article.  The
message formatting and the rotating colour emoji do not affect any claim and are
not modelled. -/
def sendNotifications (articles : List ArticleK) (sendOk : ArticleK → Bool) :
    List (ArticleK × Bool) :=
  (sortByDateDesc articles).map (fun a => (a, sendOk a))

/-- Observable outcome of one `process_news` call. -/
structure RunResult where
  /-- the chunks actually fetched (`[]` when an early return fires before line 87) -/
  fetchedChunks : List (List Str)
  /-- `new_articles` (line 96 onward) -/
  newArticles : List ArticleK
  /-- the per-article send attempts of `send_notifications`, with their outcomes -/
  sentAttempts : List (ArticleK × Bool)
  /-- the configuration passed to `save_config` (line 109), `none` on early return -/
  savedConfig : Option Config
  /-- the manual-mode summary of line 112 (number of new articles), when sent -/
  manualSummary : Option Nat
  /-- the chat receiving the manual-mode notice of line 83, when sent -/
  noKeywordsMsg : Option Int
deriving DecidableEq

/-- `process_news` (lines 77-112) on an already loaded configuration.
`fetch` stands for `fetch_news_chunk` and `sendOk` for per-article delivery
success inside `send_notifications`. -/
def processNewsRun (cfg : Config) (isManual : Bool) (chatIdManual : Option Int)
    (now : Int) (fetch : List Str → List Article) (sendOk : ArticleK → Bool) :
    RunResult :=
  let notification_id := cfg.notification_chat_id
  let target_chat_id := if isManual then chatIdManual else notification_id
  if truthyOpt cfg.owner_id = false ∨ cfg.keywords = [] then
    { fetchedChunks := [], newArticles := [], sentAttempts := [], savedConfig := none,
      manualSummary := none,
      noKeywordsMsg :=
        if isManual = true ∧ truthyOpt target_chat_id = true then target_chat_id else none }
  else if cfg.monitoring_on = false ∧ isManual = false then
    { fetchedChunks := [], newArticles := [], sentAttempts := [], savedConfig := none,
      manualSummary := none, noKeywordsMsg := none }
  else
    let keyword_chunks := keywordChunks cfg.keywords
    let found_news := mergeByLink (keyword_chunks.map fetch)
    let limit := now - (DIAS_FILTRO_NOTICIAS + 1)
    let r := found_news.foldl (filterStep cfg.keywords limit) ([], cfg.history)
    let sent :=
      if r.1 ≠ [] ∧ truthyOpt notification_id = true then sendNotifications r.1 sendOk
      else []
    { fetchedChunks := keyword_chunks, newArticles := r.1, sentAttempts := sent,
      savedConfig := some { cfg with history := r.2 },
      manualSummary :=
        if isManual = true ∧ truthyOpt target_chat_id = true then some r.1.length else none,
      noKeywordsMsg := none }

/-! ## Keyword handler (`text_handler`, lines 219-237) -/

/-- The reply sent at line 237 (or line 226), as a tagged message; payloads carry
the data interpolated into the Portuguese f-strings. -/
inductive Reply
  /-- line 226: `"ℹ️ Formato inválido."` -/
  | invalidFormat
  /-- line 230: `"✅ Adicionados: ..."` -/
  | added (ks : List Str)
  /-- line 231: `"ℹ️ Nenhuma palavra-chave nova para adicionar."` -/
  | nothingNew
  /-- line 234: `"🗑️ Removidos: ..."` -/
  | removed (ks : List Str)
  /-- line 235: `"ℹ️ Nenhuma das palavras-chave informadas foi encontrada."` -/
  | nothingFound
deriving DecidableEq

/-- Observable outcome of one `text_handler` call: the configuration passed to
`save_config` (line 236), if any, and the reply (line 237), if the handler got
that far. -/
structure TextResult where
  saved : Option Config
  reply : Option Reply
deriving DecidableEq

/-- Two permutation-equal lists have the same insertion sort (both are sorted
and permutation-equal, and `≤` on `List ℕ` is antisymmetric). -/
lemma insertionSort_eq_of_perm {l₁ l₂ : List Str} (h : l₁.Perm l₂) :
    l₁.insertionSort (· ≤ ·) = l₂.insertionSort (· ≤ ·) :=
  List.eq_of_perm_of_sorted
    ((List.perm_insertionSort _ _).trans (h.trans (List.perm_insertionSort _ _).symm))
    (List.sorted_insertionSort _ _) (List.sorted_insertionSort _ _)

/-- `sorted(list(s))` for a Python set `s`: the unordered set is read out in some
order and sorted, which is order-independent; on the `Finset` model this is the
insertion sort of the underlying list, lifted over permutation. -/
def sortedList (s : Finset Str) : List Str :=
  Quotient.liftOn s.val (fun l => l.insertionSort (· ≤ ·))
    (fun _ _ h => insertionSort_eq_of_perm h)

/-- `" OU "` -/
def ouPat : Str := [32, 79, 85, 32]

/-- `" OR "` -/
def orPat : Str := [32, 79, 82, 32]

/-- Lines 224-225 applied to the stripped message text:
`items_raw = text[1:].upper().replace(' OU ', ',').replace(' OR ', ',').split(',')`
then `items = sorted([k.strip() for k in items_raw if k.strip()])`.
Python's `sorted` on strings is the lexicographic order on code points, which is
the `≤` of `List ℕ`. -/
def parseItems (text : Str) : List Str :=
  let items_raw := splitChar 44 (replaceStr orPat [44] (replaceStr ouPat [44] (upperStr (text.drop 1))))
  ((items_raw.map pyStrip).filter (fun k => k ≠ [])).insertionSort (· ≤ ·)

/-- `text_handler` (lines 219-237).  `uid` is `update.effective_user.id`; `raw` is
`update.message.text`.  A `none` reply means the handler returned before line 226
(non-owner sender, or a message without the `@`/`#` prefix). -/
def textHandler (cfg : Config) (uid : Int) (raw : Str) : TextResult :=
  if cfg.owner_id ≠ some uid then ⟨none, none⟩
  else
    let text := pyStrip raw
    match text with
    | [] => ⟨none, none⟩
    | c :: _ =>
      if c ≠ 64 ∧ c ≠ 35 then ⟨none, none⟩
      else
        let items := parseItems text
        if items = [] then ⟨none, some .invalidFormat⟩
        else
          let keywords_set := cfg.keywords.toFinset
          if c = 64 then
            let added := items.filter (fun k => k ∉ keywords_set)
            if added ≠ [] then
              ⟨some { cfg with keywords := sortedList (keywords_set ∪ added.toFinset) },
                some (.added added)⟩
            else ⟨none, some .nothingNew⟩
          else
            let to_remove := keywords_set.filter (fun k => lowerStr k ∈ items.map lowerStr)
            if to_remove ≠ ∅ then
              ⟨some { cfg with keywords := sortedList (keywords_set \ to_remove) },
                some (.removed (sortedList to_remove))⟩
            else ⟨none, some .nothingFound⟩

/-! ## Config store and process-global state

`load_config` (lines 33-40) returns `DEFAULT_CONFIG.copy()` when the file is
missing or unreadable.  `dict.copy()` is shallow: the `history` entry of every
such default is the *same* mutable `set` object as `DEFAULT_CONFIG['history']`
(line 29).  The model therefore carries that shared set (`defaultHistory`)
alongside the persisted file, and the `process_news` operation below writes back
into it exactly when the configuration it mutates in place was such a default. -/

/-- The persisted JSON file: absent, unparsable, or a stored document.
`save_config` always writes every field, so a readable file is a full `Config`
(the `history` list round-trips through `set(...)`/`list(...)`). -/
inductive FileState
  | missing
  | corrupt
  | valid (cfg : Config)
deriving DecidableEq

/-- Process-global mutable state: the backing file plus the shared
`DEFAULT_CONFIG['history']` set. -/
structure World where
  file : FileState
  defaultHistory : Finset Str
deriving DecidableEq

/-- `load_config` (lines 33-40).  Missing file and parse failure both fall back to
`DEFAULT_CONFIG.copy()`; the exception is swallowed (the function is total), and
the fallback's `history` is the shared default set. -/
def load_config (w : World) : Config :=
  match w.file with
  | .valid c => c
  | _ =>
    { owner_id := none, notification_chat_id := none, keywords := [],
      monitoring_on := false, history := w.defaultHistory }

/-- Whether `load_config` fell back to `DEFAULT_CONFIG.copy()` (and hence returned
a config whose `history` aliases the shared default set). -/
def loadDefaulted (w : World) : Bool :=
  match w.file with
  | .valid _ => false
  | _ => true

/-- `start` (lines 196-209): registers owner and notification chat on first
contact (`if not config.get('owner_id')`, truthiness test), otherwise saves
nothing. -/
def opStart (w : World) (uid cid : Int) : World :=
  let c := load_config w
  if truthyOpt c.owner_id = false then
    { w with file := .valid { c with owner_id := some uid, notification_chat_id := some cid } }
  else w

/-- `is_owner` (lines 193-194): `update.effective_user.id == config.get("owner_id")`. -/
def is_owner (uid : Int) (c : Config) : Bool := some uid == c.owner_id

/-- `definir_grupo` (lines 211-217). -/
def opDefinirGrupo (w : World) (uid cid : Int) : World :=
  let c := load_config w
  if is_owner uid c then
    { w with file := .valid { c with notification_chat_id := some cid } }
  else w

/-- `text_handler` as a transition on the global state: the handler only ever
rebinds `config['keywords']` (no in-place mutation of the history set), so the
shared default set is untouched. -/
def opTextHandler (w : World) (uid : Int) (raw : Str) : World :=
  match (textHandler (load_config w) uid raw).saved with
  | some c' => { w with file := .valid c' }
  | none => w

/-- The `toggle_monitoring` branch of `button_handler` (lines 178-182), owner-gated
at line 170. -/
def opToggleMonitoring (w : World) (uid : Int) : World :=
  let c := load_config w
  if is_owner uid c then
    { w with file := .valid { c with monitoring_on := !c.monitoring_on } }
  else w

/-- `process_news` as a transition on the global state.  When the run reaches the
filter loop, `history.add(...)` (line 103) mutates the loaded config's history set
in place; if that set was the shared default (`loadDefaulted`), the mutation is
visible through `DEFAULT_CONFIG` as well — the model writes it back into
`defaultHistory` in exactly that case. -/
def processNewsWorld (w : World) (isManual : Bool) (chatIdManual : Option Int)
    (now : Int) (fetch : List Str → List Article) (sendOk : ArticleK → Bool) :
    World × RunResult :=
  let c := load_config w
  let r := processNewsRun c isManual chatIdManual now fetch sendOk
  (match r.savedConfig with
   | none => w
   | some c' =>
     { file := .valid c',
       defaultHistory := if loadDefaulted w then c'.history else w.defaultHistory },
   r)

/-- The state transition of one `process_news` call. -/
def opProcessNews (w : World) (isManual : Bool) (chatIdManual : Option Int)
    (now : Int) (fetch : List Str → List Article) (sendOk : ArticleK → Bool) : World :=
  (processNewsWorld w isManual chatIdManual now fetch sendOk).1

/-- `limpar_tudo` (lines 239-250): after the countdown, removes the config file
(owner-gated). -/
def opLimparTudo (w : World) (uid : Int) : World :=
  if is_owner uid (load_config w) then { w with file := .missing } else w

/-- External event: the backing file becomes unreadable/corrupt (the situation
`load_config`'s `except` clause handles). -/
def opCorruptFile (w : World) : World :=
  { w with file := .corrupt }

/-- The worlds reachable from process start (no config file yet, empty shared
default set) under the program's operations and external file corruption. -/
inductive Reachable : World → Prop
  | init : Reachable { file := .missing, defaultHistory := ∅ }
  | start (w : World) (uid cid : Int) : Reachable w → Reachable (opStart w uid cid)
  | setGroup (w : World) (uid cid : Int) : Reachable w → Reachable (opDefinirGrupo w uid cid)
  | text (w : World) (uid : Int) (raw : Str) : Reachable w → Reachable (opTextHandler w uid raw)
  | toggle (w : World) (uid : Int) : Reachable w → Reachable (opToggleMonitoring w uid)
  | news (w : World) (m : Bool) (cm : Option Int) (now : Int)
      (fetch : List Str → List Article) (sendOk : ArticleK → Bool) :
      Reachable w → Reachable (opProcessNews w m cm now fetch sendOk)
  | clearAll (w : World) (uid : Int) : Reachable w → Reachable (opLimparTudo w uid)
  | fileCorrupts (w : World) : Reachable w → Reachable (opCorruptFile w)

/-! ## Polling loop (`monitor_loop`, lines 184-191) -/

/-- Observable outcome of one iteration of the polling loop. -/
structure MonitorOut where
  /-- whether `process_news` was invoked -/
  invoked : Bool
  /-- the pipeline outcome when invoked -/
  run : Option RunResult
  /-- the unconditional `asyncio.sleep(MONITORAMENTO_INTERVAL)` of line 191 -/
  sleep : Nat
deriving DecidableEq

/-- One iteration of the `while True` body (lines 188-191): reload the
configuration, invoke the pipeline only if monitoring is on and an owner is
registered, then sleep the fixed interval. -/
def monitorIteration (w : World) (now : Int) (fetch : List Str → List Article)
    (sendOk : ArticleK → Bool) : World × MonitorOut :=
  let c := load_config w
  if (c.monitoring_on && truthyOpt c.owner_id) = true then
    let p := processNewsWorld w false none now fetch sendOk
    (p.1, { invoked := true, run := some p.2, sleep := MONITORAMENTO_INTERVAL })
  else
    (w, { invoked := false, run := none, sleep := MONITORAMENTO_INTERVAL })

/-! ## Lemmas about the filter loop -/

/-- Case analysis of one `filterStep`: either the article is skipped (link seen,
too old, or no keyword match) and the accumulator is unchanged, or it is appended
and its link inserted into the history. -/
lemma filterStep_eq (kws : List Str) (limit : Int)
    (acc : List ArticleK × Finset Str) (a : Article) :
    filterStep kws limit acc a = acc ∨
      (a.link ∉ acc.2 ∧ ¬ a.date < limit ∧ matchedKws kws a ≠ [] ∧
        filterStep kws limit acc a =
          (acc.1 ++ [⟨a, (matchedKws kws a).toFinset⟩], insert a.link acc.2)) := by
  unfold filterStep
  by_cases h1 : a.link ∈ acc.2 ∨ a.date < limit
  · left
    simp [h1]
  · by_cases h2 : matchedKws kws a = []
    · left
      simp [h1, h2]
    · right
      rw [not_or] at h1
      exact ⟨h1.1, h1.2, h2, by simp [h1.1, h1.2, h2]⟩

/-- `filterStep` never removes links from the running history. -/
lemma filterStep_hist_sub (kws : List Str) (limit : Int)
    (acc : List ArticleK × Finset Str) (a : Article) :
    acc.2 ⊆ (filterStep kws limit acc a).2 := by
  rcases filterStep_eq kws limit acc a with h | ⟨_, _, _, h⟩
  · rw [h]
  · rw [h]
    exact Finset.subset_insert _ _

/-- `filterStep` preserves "every kept article's link is in the running history". -/
lemma filterStep_links_rec (kws : List Str) (limit : Int)
    (acc : List ArticleK × Finset Str) (a : Article)
    (pre : ∀ ak ∈ acc.1, ak.art.link ∈ acc.2) :
    ∀ ak ∈ (filterStep kws limit acc a).1, ak.art.link ∈ (filterStep kws limit acc a).2 := by
  rcases filterStep_eq kws limit acc a with h | ⟨_, _, _, h⟩
  · rw [h]
    exact pre
  · rw [h]
    intro ak hak
    rcases List.mem_append.mp hak with hmem | hmem
    · exact Finset.mem_insert_of_mem (pre ak hmem)
    · simp only [List.mem_singleton] at hmem
      subst hmem
      exact Finset.mem_insert_self _ _

/-- Any article kept by one `filterStep` either was already kept or satisfies the
filter conditions relative to the incoming accumulator. -/
lemma filterStep_new_cases (kws : List Str) (limit : Int)
    (acc : List ArticleK × Finset Str) (a : Article) :
    ∀ ak ∈ (filterStep kws limit acc a).1,
      ak ∈ acc.1 ∨
        (ak.art.link ∉ acc.2 ∧ ¬ ak.art.date < limit ∧
          matchedKws kws ak.art ≠ [] ∧ ak.found = (matchedKws kws ak.art).toFinset) := by
  rcases filterStep_eq kws limit acc a with h | ⟨h1, h2, h3, h⟩
  · rw [h]
    intro ak hak
    exact Or.inl hak
  · rw [h]
    intro ak hak
    rcases List.mem_append.mp hak with hmem | hmem
    · exact Or.inl hmem
    · simp only [List.mem_singleton] at hmem
      subst hmem
      exact Or.inr ⟨h1, h2, h3, rfl⟩

/-- Invariant of the whole filter loop (lines 98-103), by induction over the merged
article list: (i) the history only grows; (ii) every kept article passed the
dedup/age/keyword conditions relative to the initial accumulator; (iii) every kept
article's link ends up in the final history. -/
lemma filterLoop_inv (kws : List Str) (limit : Int) :
    ∀ (arts : List Article) (acc : List ArticleK × Finset Str),
      (∀ ak ∈ acc.1, ak.art.link ∈ acc.2) →
      (∀ l ∈ acc.2, l ∈ (List.foldl (filterStep kws limit) acc arts).2) ∧
        (∀ ak ∈ (List.foldl (filterStep kws limit) acc arts).1,
          ak ∈ acc.1 ∨
            (ak.art.link ∉ acc.2 ∧ ¬ ak.art.date < limit ∧
              matchedKws kws ak.art ≠ [] ∧ ak.found = (matchedKws kws ak.art).toFinset)) ∧
        (∀ ak ∈ (List.foldl (filterStep kws limit) acc arts).1,
          ak.art.link ∈ (List.foldl (filterStep kws limit) acc arts).2) := by
  intro arts
  induction arts with
  | nil =>
    intro acc pre
    exact ⟨fun l hl => hl, fun ak hak => Or.inl hak, pre⟩
  | cons a t ih =>
    intro acc pre
    simp only [List.foldl_cons]
    obtain ⟨ih1, ih2, ih3⟩ := ih (filterStep kws limit acc a) (filterStep_links_rec kws limit acc a pre)
    refine ⟨?_, ?_, ih3⟩
    · intro l hl
      exact ih1 l (filterStep_hist_sub kws limit acc a hl)
    · intro ak hak
      rcases ih2 ak hak with hmem | ⟨hlink, hdate, hkw, hfound⟩
      · rcases filterStep_new_cases kws limit acc a ak hmem with hmem' | hp
        · exact Or.inl hmem'
        · exact Or.inr hp
      · exact Or.inr ⟨fun hc => hlink (filterStep_hist_sub kws limit acc a hc), hdate, hkw, hfound⟩

/-- Sorting for delivery does not change which articles are present. -/
lemma mem_sortByDateDesc {arts : List ArticleK} {a : ArticleK} :
    a ∈ sortByDateDesc arts ↔ a ∈ arts :=
  (List.perm_insertionSort _ _).mem_iff

/-- Every element of the send-attempt log is a kept article paired with its own
delivery outcome. -/
lemma mem_sendNotifications {arts : List ArticleK} {sendOk : ArticleK → Bool}
    {p : ArticleK × Bool} (hp : p ∈ sendNotifications arts sendOk) :
    p.1 ∈ arts ∧ p.2 = sendOk p.1 := by
  unfold sendNotifications at hp
  rcases List.mem_map.mp hp with ⟨a, ha, rfl⟩
  exact ⟨mem_sortByDateDesc.mp ha, rfl⟩

/-- Every kept article is attempted, with its own delivery outcome. -/
lemma sendNotifications_mem (arts : List ArticleK) (sendOk : ArticleK → Bool)
    {ak : ArticleK} (h : ak ∈ arts) : (ak, sendOk ak) ∈ sendNotifications arts sendOk :=
  List.mem_map.mpr ⟨ak, mem_sortByDateDesc.mpr h, rfl⟩

/-- Either `process_news` returns early (nothing kept, nothing sent, nothing
saved), or it runs the full pipeline of lines 87-109. -/
lemma processNewsRun_cases (cfg : Config) (m : Bool) (cm : Option Int) (now : Int)
    (f : List Str → List Article) (ok : ArticleK → Bool) :
    ((processNewsRun cfg m cm now f ok).newArticles = [] ∧
      (processNewsRun cfg m cm now f ok).sentAttempts = [] ∧
      (processNewsRun cfg m cm now f ok).savedConfig = none)
    ∨
    ((processNewsRun cfg m cm now f ok).newArticles =
        ((mergeByLink ((keywordChunks cfg.keywords).map f)).foldl
          (filterStep cfg.keywords (now - (DIAS_FILTRO_NOTICIAS + 1))) ([], cfg.history)).1 ∧
      (processNewsRun cfg m cm now f ok).sentAttempts =
        (if ((mergeByLink ((keywordChunks cfg.keywords).map f)).foldl
              (filterStep cfg.keywords (now - (DIAS_FILTRO_NOTICIAS + 1))) ([], cfg.history)).1 ≠ [] ∧
            truthyOpt cfg.notification_chat_id = true then
          sendNotifications
            ((mergeByLink ((keywordChunks cfg.keywords).map f)).foldl
              (filterStep cfg.keywords (now - (DIAS_FILTRO_NOTICIAS + 1))) ([], cfg.history)).1 ok
        else []) ∧
      (processNewsRun cfg m cm now f ok).savedConfig =
        some { cfg with
          history :=
            ((mergeByLink ((keywordChunks cfg.keywords).map f)).foldl
              (filterStep cfg.keywords (now - (DIAS_FILTRO_NOTICIAS + 1))) ([], cfg.history)).2 }) := by
  by_cases h1 : truthyOpt cfg.owner_id = false ∨ cfg.keywords = []
  · left
    simp [processNewsRun, h1]
  · by_cases h2 : cfg.monitoring_on = false ∧ m = false
    · left
      simp [processNewsRun, h1, h2]
    · right
      simp [processNewsRun, h1, h2]

/-- When the guards of lines 82-85 pass, `process_news` runs the full pipeline. -/
lemma processNewsRun_main (cfg : Config) (m : Bool) (cm : Option Int) (now : Int)
    (f : List Str → List Article) (ok : ArticleK → Bool)
    (h1 : truthyOpt cfg.owner_id = true) (h2 : cfg.keywords ≠ [])
    (h3 : cfg.monitoring_on = true ∨ m = true) :
    processNewsRun cfg m cm now f ok =
      { fetchedChunks := keywordChunks cfg.keywords,
        newArticles :=
          ((mergeByLink ((keywordChunks cfg.keywords).map f)).foldl
            (filterStep cfg.keywords (now - (DIAS_FILTRO_NOTICIAS + 1))) ([], cfg.history)).1,
        sentAttempts :=
          (if ((mergeByLink ((keywordChunks cfg.keywords).map f)).foldl
                (filterStep cfg.keywords (now - (DIAS_FILTRO_NOTICIAS + 1))) ([], cfg.history)).1 ≠ [] ∧
              truthyOpt cfg.notification_chat_id = true then
            sendNotifications
              ((mergeByLink ((keywordChunks cfg.keywords).map f)).foldl
                (filterStep cfg.keywords (now - (DIAS_FILTRO_NOTICIAS + 1))) ([], cfg.history)).1 ok
          else []),
        savedConfig :=
          some { cfg with
            history :=
              ((mergeByLink ((keywordChunks cfg.keywords).map f)).foldl
                (filterStep cfg.keywords (now - (DIAS_FILTRO_NOTICIAS + 1))) ([], cfg.history)).2 },
        manualSummary :=
          (if m = true ∧ truthyOpt (if m then cm else cfg.notification_chat_id) = true then
            some ((mergeByLink ((keywordChunks cfg.keywords).map f)).foldl
              (filterStep cfg.keywords (now - (DIAS_FILTRO_NOTICIAS + 1))) ([], cfg.history)).1.length
          else none),
        noKeywordsMsg := none } := by
  have hc1 : ¬ (truthyOpt cfg.owner_id = false ∨ cfg.keywords = []) := by
    rintro (hfalse | hempty)
    · rw [h1] at hfalse
      cases hfalse
    · exact h2 hempty
  have hc2 : ¬ (cfg.monitoring_on = false ∧ m = false) := by
    rintro ⟨hmon, hm⟩
    rcases h3 with h3 | h3
    · rw [h3] at hmon
      cases hmon
    · rw [h3] at hm
      cases hm
  simp [processNewsRun, hc1, hc2]

/-- An early return (owner unset) saves nothing; used for the reachability
analysis of the shared default history set. -/
lemma processNewsRun_saved_none_of_no_owner (cfg : Config) (m : Bool) (cm : Option Int)
    (now : Int) (f : List Str → List Article) (ok : ArticleK → Bool)
    (h : truthyOpt cfg.owner_id = false) :
    (processNewsRun cfg m cm now f ok).savedConfig = none := by
  simp [processNewsRun, h]

/-! ## Claim theorems -/

/-- Claim C1: in every pipeline run, an article whose link is already present in
the loaded history set is dropped by the dedup filter (line 99) and never appears
among the kept articles nor among the notifier's send attempts, regardless of its
title, source, date, or matching keywords. -/
theorem claim_C1_history_link_never_redelivered
    (cfg : Config) (isManual : Bool) (chatIdManual : Option Int) (now : Int)
    (fetch : List Str → List Article) (sendOk : ArticleK → Bool) (l : Str)
    (hl : l ∈ cfg.history) :
    (processNewsRun cfg isManual chatIdManual now fetch sendOk).newArticles.filter
        (fun ak => ak.art.link == l) = []
    ∧ (processNewsRun cfg isManual chatIdManual now fetch sendOk).sentAttempts.filter
        (fun p => p.1.art.link == l) = [] := by
  rcases processNewsRun_cases cfg isManual chatIdManual now fetch sendOk with
    ⟨hn, hs, _⟩ | ⟨hn, hs, _⟩
  · rw [hn, hs]
    exact ⟨rfl, rfl⟩
  · have pre : ∀ ak ∈ ([] : List ArticleK), ak.art.link ∈ cfg.history := by
      intro ak h
      exact absurd h (List.not_mem_nil ak)
    have inv := filterLoop_inv cfg.keywords (now - (DIAS_FILTRO_NOTICIAS + 1))
      (mergeByLink ((keywordChunks cfg.keywords).map fetch)) ([], cfg.history) pre
    have hnew : ∀ ak ∈ (processNewsRun cfg isManual chatIdManual now fetch sendOk).newArticles,
        ak.art.link ≠ l := by
      rw [hn]
      intro ak hak
      rcases inv.2.1 ak hak with hmem | ⟨hlink, _, _, _⟩
      · exact absurd hmem (List.not_mem_nil ak)
      · intro heq
        rw [heq] at hlink
        exact hlink hl
    constructor
    · rw [List.filter_eq_nil_iff]
      intro ak hak hbeq
      exact hnew ak hak (by simpa using hbeq)
    · rw [hs]
      rw [List.filter_eq_nil_iff]
      intro p hp hbeq
      rw [List.mem_ite_nil_right] at hp
      have hmem := (mem_sendNotifications hp.2).1
      have : p.1.art.link ≠ l := by
        rw [← hn] at *
        refine hnew p.1 ?_ 
        rw [hn]
        exact hmem
      exact this (by simpa using hbeq)

/-- Witness for C1 at a concrete input: history already holds the link `"L"`
(`[76]`); the fetch returns one article with that link and one with a fresh link;
the seen link never reappears. -/
theorem claim_C1_history_link_never_redelivered_witness :
    (([76] : Str) ∈ ({[76]} : Finset Str))
    ∧ (processNewsRun ⟨some 1, some 5, [[65]], true, {[76]}⟩ false none 10
        (fun _ => [⟨[65], [76], [83], 9⟩, ⟨[65], [77], [84], 8⟩])
        (fun _ => true)).newArticles.filter (fun ak => ak.art.link == [76]) = []
    ∧ (processNewsRun ⟨some 1, some 5, [[65]], true, {[76]}⟩ false none 10
        (fun _ => [⟨[65], [76], [83], 9⟩, ⟨[65], [77], [84], 8⟩])
        (fun _ => true)).sentAttempts.filter (fun p => p.1.art.link == [76]) = [] := by
  refine ⟨by decide, ?_, ?_⟩
  · exact (claim_C1_history_link_never_redelivered _ _ _ _ _ _ _ (by decide)).1
  · exact (claim_C1_history_link_never_redelivered _ _ _ _ _ _ _ (by decide)).2

/-- What is kept and what is saved do not depend on delivery outcomes: the filter
loop and the `save_config` argument are computed at lines 96-103/108 from the
fetched data alone, with sends only afterwards. -/
lemma processNewsRun_indep_sendOk (cfg : Config) (m : Bool) (cm : Option Int)
    (now : Int) (f : List Str → List Article) (ok1 ok2 : ArticleK → Bool) :
    (processNewsRun cfg m cm now f ok1).savedConfig =
        (processNewsRun cfg m cm now f ok2).savedConfig
    ∧ (processNewsRun cfg m cm now f ok1).newArticles =
        (processNewsRun cfg m cm now f ok2).newArticles := by
  by_cases h1 : truthyOpt cfg.owner_id = false ∨ cfg.keywords = []
  · simp [processNewsRun, h1]
  · by_cases h2 : cfg.monitoring_on = false ∧ m = false
    · simp [processNewsRun, h1, h2]
    · simp [processNewsRun, h1, h2]

/-- Claim C2: each kept article's link is recorded in the history that gets saved
(line 103 precedes lines 106 and 109), and a delivery failure for one article
neither changes the persisted configuration nor robs any other article of its own
send attempt: the saved state is identical under any two delivery oracles, and
every kept article appears in the attempt log paired with its own outcome. -/
theorem claim_C2_history_before_send_and_failure_isolation
    (cfg : Config) (m : Bool) (cm : Option Int) (now : Int)
    (f : List Str → List Article) (ok1 ok2 : ArticleK → Bool)
    (hdest : truthyOpt cfg.notification_chat_id = true) :
    (processNewsRun cfg m cm now f ok1).savedConfig =
        (processNewsRun cfg m cm now f ok2).savedConfig
    ∧ (processNewsRun cfg m cm now f ok1).newArticles =
        (processNewsRun cfg m cm now f ok2).newArticles
    ∧ (processNewsRun cfg m cm now f ok1).newArticles.all
        (fun ak => (processNewsRun cfg m cm now f ok1).savedConfig.elim false
          (fun c' => decide (ak.art.link ∈ c'.history))) = true
    ∧ (processNewsRun cfg m cm now f ok1).newArticles.all
        (fun ak => decide ((ak, ok1 ak) ∈ (processNewsRun cfg m cm now f ok1).sentAttempts)) = true := by
  obtain ⟨hsv, hnw⟩ := processNewsRun_indep_sendOk cfg m cm now f ok1 ok2
  refine ⟨hsv, hnw, ?_, ?_⟩
  · rcases processNewsRun_cases cfg m cm now f ok1 with ⟨hn, _, _⟩ | ⟨hn, _, hsave⟩
    · rw [hn]
      rfl
    · rw [hn, hsave]
      rw [List.all_eq_true]
      intro ak hak
      have pre : ∀ ak ∈ ([] : List ArticleK), ak.art.link ∈ cfg.history := by
        intro ak h
        exact absurd h (List.not_mem_nil ak)
      have inv := filterLoop_inv cfg.keywords (now - (DIAS_FILTRO_NOTICIAS + 1))
        (mergeByLink ((keywordChunks cfg.keywords).map f)) ([], cfg.history) pre
      simpa using inv.2.2 ak hak
  · rcases processNewsRun_cases cfg m cm now f ok1 with ⟨hn, _, _⟩ | ⟨hn, hs, _⟩
    · rw [hn]
      rfl
    · rw [hn, hs]
      rw [List.all_eq_true]
      intro ak hak
      have hne : ((mergeByLink ((keywordChunks cfg.keywords).map f)).foldl
          (filterStep cfg.keywords (now - (DIAS_FILTRO_NOTICIAS + 1))) ([], cfg.history)).1 ≠ [] := by
        intro hnil
        rw [hnil] at hak
        exact absurd hak (List.not_mem_nil ak)
      rw [if_pos ⟨hne, hdest⟩]
      simpa using sendNotifications_mem _ ok1 hak

/-- Witness for C2 at a concrete input: two fresh matching articles are fetched;
under `ok1` the delivery of the newer article (link `[76]`) fails while the older
one (link `[77]`) succeeds, yet the saved state equals the all-success run's and
both articles are attempted. -/
theorem claim_C2_history_before_send_and_failure_isolation_witness :
    (processNewsRun ⟨some 1, some 5, [[65]], true, ∅⟩ false none 10
        (fun _ => [⟨[65], [76], [83], 9⟩, ⟨[65], [77], [84], 8⟩])
        (fun ak => ak.art.link == [77])).savedConfig =
      (processNewsRun ⟨some 1, some 5, [[65]], true, ∅⟩ false none 10
        (fun _ => [⟨[65], [76], [83], 9⟩, ⟨[65], [77], [84], 8⟩])
        (fun _ => true)).savedConfig
    ∧ (processNewsRun ⟨some 1, some 5, [[65]], true, ∅⟩ false none 10
        (fun _ => [⟨[65], [76], [83], 9⟩, ⟨[65], [77], [84], 8⟩])
        (fun ak => ak.art.link == [77])).newArticles =
      (processNewsRun ⟨some 1, some 5, [[65]], true, ∅⟩ false none 10
        (fun _ => [⟨[65], [76], [83], 9⟩, ⟨[65], [77], [84], 8⟩])
        (fun _ => true)).newArticles
    ∧ (processNewsRun ⟨some 1, some 5, [[65]], true, ∅⟩ false none 10
        (fun _ => [⟨[65], [76], [83], 9⟩, ⟨[65], [77], [84], 8⟩])
        (fun ak => ak.art.link == [77])).newArticles.all
        (fun ak => (processNewsRun ⟨some 1, some 5, [[65]], true, ∅⟩ false none 10
            (fun _ => [⟨[65], [76], [83], 9⟩, ⟨[65], [77], [84], 8⟩])
            (fun ak => ak.art.link == [77])).savedConfig.elim false
          (fun c' => decide (ak.art.link ∈ c'.history))) = true
    ∧ (processNewsRun ⟨some 1, some 5, [[65]], true, ∅⟩ false none 10
        (fun _ => [⟨[65], [76], [83], 9⟩, ⟨[65], [77], [84], 8⟩])
        (fun ak => ak.art.link == [77])).newArticles.all
        (fun ak => decide ((ak, (fun (ak : ArticleK) => ak.art.link == [77]) ak) ∈
          (processNewsRun ⟨some 1, some 5, [[65]], true, ∅⟩ false none 10
            (fun _ => [⟨[65], [76], [83], 9⟩, ⟨[65], [77], [84], 8⟩])
            (fun ak => ak.art.link == [77])).sentAttempts)) = true := by
  refine ⟨?_, ?_, ?_, ?_⟩
  · exact (claim_C2_history_before_send_and_failure_isolation _ _ _ _ _ _ _ (by decide)).1
  · exact (claim_C2_history_before_send_and_failure_isolation _ _ _ _ _ _ _ (by decide)).2.1
  · exact (claim_C2_history_before_send_and_failure_isolation
      ⟨some 1, some 5, [[65]], true, ∅⟩ false none 10
      (fun _ => [⟨[65], [76], [83], 9⟩, ⟨[65], [77], [84], 8⟩])
      (fun ak => ak.art.link == [77]) (fun _ => true) (by decide)).2.2.1
  · exact (claim_C2_history_before_send_and_failure_isolation
      ⟨some 1, some 5, [[65]], true, ∅⟩ false none 10
      (fun _ => [⟨[65], [76], [83], 9⟩, ⟨[65], [77], [84], 8⟩])
      (fun ak => ak.art.link == [77]) (fun _ => true) (by decide)).2.2.2

/-- Counterexample to C3 as stated: with `now = 10` the cutoff of line 97 is
`limit = now - (DIAS_FILTRO_NOTICIAS + 1) = 6`, and a matching article dated
exactly `6` — exactly at the cutoff — is kept and delivered, because line 99
compares with strict `<`.  The claim's "an article dated exactly at the cutoff is
also excluded" is therefore false. -/
theorem claim_C3_cutoff_boundary_counterexample :
    ((10 : Int) - (DIAS_FILTRO_NOTICIAS + 1) = 6)
    ∧ (processNewsRun ⟨some 1, some 5, [[65]], true, ∅⟩ false none 10
        (fun _ => [⟨[65], [76], [83], 6⟩]) (fun _ => true)).newArticles.map
        (fun ak => ak.art.date) = [6]
    ∧ (processNewsRun ⟨some 1, some 5, [[65]], true, ∅⟩ false none 10
        (fun _ => [⟨[65], [76], [83], 6⟩]) (fun _ => true)).sentAttempts.map
        (fun p => (p.1.art.date, p.2)) = [(6, true)] := by
  refine ⟨by decide, by decide, by decide⟩

/-- Claim C3 (amended): an article strictly older than the cutoff
`now - (DIAS_FILTRO_NOTICIAS + 1)` is excluded from delivery even if it matches
keywords and is not in history — equivalently, every kept or attempted article is
dated at or after the cutoff.  An article dated exactly at the cutoff is *kept*
(the comparison at line 99 is strict), which is the one boundary case where the
original claim fails. -/
theorem claim_C3_retention_cutoff_excludes_older
    (cfg : Config) (m : Bool) (cm : Option Int) (now : Int)
    (f : List Str → List Article) (ok : ArticleK → Bool) :
    (processNewsRun cfg m cm now f ok).newArticles.all
        (fun ak => decide (now - (DIAS_FILTRO_NOTICIAS + 1) ≤ ak.art.date)) = true
    ∧ (processNewsRun cfg m cm now f ok).sentAttempts.all
        (fun p => decide (now - (DIAS_FILTRO_NOTICIAS + 1) ≤ p.1.art.date)) = true := by
  rcases processNewsRun_cases cfg m cm now f ok with ⟨hn, hs, _⟩ | ⟨hn, hs, _⟩
  · rw [hn, hs]
    exact ⟨rfl, rfl⟩
  · have pre : ∀ ak ∈ ([] : List ArticleK), ak.art.link ∈ cfg.history := by
      intro ak h
      exact absurd h (List.not_mem_nil ak)
    have inv := filterLoop_inv cfg.keywords (now - (DIAS_FILTRO_NOTICIAS + 1))
      (mergeByLink ((keywordChunks cfg.keywords).map f)) ([], cfg.history) pre
    have hdate : ∀ ak ∈ ((mergeByLink ((keywordChunks cfg.keywords).map f)).foldl
        (filterStep cfg.keywords (now - (DIAS_FILTRO_NOTICIAS + 1))) ([], cfg.history)).1,
        now - (DIAS_FILTRO_NOTICIAS + 1) ≤ ak.art.date := by
      intro ak hak
      rcases inv.2.1 ak hak with hmem | ⟨_, hlt, _, _⟩
      · exact absurd hmem (List.not_mem_nil ak)
      · exact Int.not_lt.mp hlt
    constructor
    · rw [hn, List.all_eq_true]
      intro ak hak
      simpa using hdate ak hak
    · rw [hs, List.all_eq_true]
      intro p hp
      rw [List.mem_ite_nil_right] at hp
      have hmem := (mem_sendNotifications hp.2).1
      simpa using hdate p.1 hmem

/-- Claim C4: each kept article carries exactly the recomputed keyword matches of
line 100 — the configured keywords whose lowercased text occurs in the lowercased
concatenation of title and source — as a (deduplicated, nonempty) set; an article
for which this search yields no keyword is never kept (the walrus test at
line 100 drops it). -/
theorem claim_C4_kept_articles_carry_recomputed_matches
    (cfg : Config) (m : Bool) (cm : Option Int) (now : Int)
    (f : List Str → List Article) (ok : ArticleK → Bool) :
    (processNewsRun cfg m cm now f ok).newArticles.all
        (fun ak => decide (ak.found = (matchedKws cfg.keywords ak.art).toFinset)
          && decide (matchedKws cfg.keywords ak.art ≠ [])
          && decide (ak.found ≠ (∅ : Finset Str))) = true := by
  rcases processNewsRun_cases cfg m cm now f ok with ⟨hn, _, _⟩ | ⟨hn, _, _⟩
  · rw [hn]
    rfl
  · rw [hn, List.all_eq_true]
    intro ak hak
    have pre : ∀ ak ∈ ([] : List ArticleK), ak.art.link ∈ cfg.history := by
      intro ak h
      exact absurd h (List.not_mem_nil ak)
    have inv := filterLoop_inv cfg.keywords (now - (DIAS_FILTRO_NOTICIAS + 1))
      (mergeByLink ((keywordChunks cfg.keywords).map f)) ([], cfg.history) pre
    rcases inv.2.1 ak hak with hmem | ⟨_, _, hkw, hfound⟩
    · exact absurd hmem (List.not_mem_nil ak)
    · have hne : ak.found ≠ (∅ : Finset Str) := by
        rcases List.exists_mem_of_ne_nil _ hkw with ⟨x, hx⟩
        rw [hfound]
        exact Finset.ne_empty_of_mem (List.mem_toFinset.mpr hx)
      simp [hfound, hkw, hne]

/-! ## Lemmas about the chunk merge (dict keyed by link) -/

/-- Effect of one dict write on the entries at key `l`: writing `a` leaves exactly
`[a]` at key `a.link` and leaves every other key unchanged (assuming at most one
entry per key, the dict invariant). -/
lemma dictInsert_filter (m : List Article) (a : Article) (l : Str)
    (huniq : ∀ k : Str, (m.filter (fun b => b.link == k)).length ≤ 1) :
    (dictInsert m a).filter (fun b => b.link == l) =
      if a.link = l then [a] else m.filter (fun b => b.link == l) := by
  unfold dictInsert
  by_cases hpres : m.any (fun b => b.link == a.link) = true
  · rw [if_pos hpres, List.filter_map]
    by_cases hal : a.link = l
    · subst hal
      rw [if_pos rfl]
      have hcomp : ∀ x ∈ m,
          ((fun b => b.link == a.link) ∘ (fun b => if b.link == a.link then a else b)) x =
            (fun b => b.link == a.link) x := by
        intro x _
        by_cases hx : (x.link == a.link) = true
        · simp [Function.comp, hx]
        · simp [Function.comp, hx]
      rw [List.filter_congr hcomp]
      have hex : ∃ x ∈ m, (x.link == a.link) = true := List.any_eq_true.mp hpres
      have hlen1 : (m.filter (fun b => b.link == a.link)).length = 1 := by
        rcases hex with ⟨x, hx, hpx⟩
        have hmem : x ∈ m.filter (fun b => b.link == a.link) :=
          List.mem_filter.mpr ⟨hx, hpx⟩
        have hpos : 0 < (m.filter (fun b => b.link == a.link)).length :=
          List.length_pos.mpr
            (fun hnil => by rw [hnil] at hmem; exact absurd hmem (List.not_mem_nil x))
        have := huniq a.link
        omega
      rcases List.length_eq_one.mp hlen1 with ⟨y, hy⟩
      have hyl : (y.link == a.link) = true := by
        have : y ∈ m.filter (fun b => b.link == a.link) := by
          rw [hy]
          exact List.mem_singleton_self y
        exact (List.mem_filter.mp this).2
      rw [hy]
      simp only [List.map_cons, List.map_nil]
      rw [if_pos hyl]
    · rw [if_neg hal]
      have hcomp : ∀ x ∈ m,
          ((fun b => b.link == l) ∘ (fun b => if b.link == a.link then a else b)) x =
            (fun b => b.link == l) x := by
        intro x _
        by_cases hx : (x.link == a.link) = true
        · rw [beq_iff_eq] at hx
          have h1 : (a.link == l) = false := beq_eq_false_iff_ne.mpr hal
          have h2 : (x.link == l) = false := beq_eq_false_iff_ne.mpr (hx ▸ hal)
          simp [Function.comp, hx, h1, h2]
        · simp [Function.comp, hx]
      rw [List.filter_congr hcomp]
      rw [List.map_congr_left (g := id) ?hid, List.map_id]
      intro x hx
      have hxl : x.link = l := beq_iff_eq.mp (List.mem_filter.mp hx).2
      have : (x.link == a.link) = false := by
        rw [beq_eq_false_iff_ne, hxl]
        intro h
        exact hal h.symm
      simp [this]
  · rw [if_neg hpres, List.filter_append]
    have hnone : m.filter (fun b => b.link == a.link) = [] := by
      rw [List.filter_eq_nil_iff]
      intro x hx hpx
      exact (List.any_eq_true.not.mp hpres) ⟨x, hx, hpx⟩
    by_cases hal : a.link = l
    · subst hal
      rw [if_pos rfl, hnone]
      simp
    · rw [if_neg hal]
      have : ([a].filter (fun b => b.link == l)) = [] := by
        simp [beq_eq_false_iff_ne, hal]
      rw [this, List.append_nil]

/-- One dict write preserves "at most one entry per key". -/
lemma dictInsert_uniq (m : List Article) (a : Article)
    (huniq : ∀ k : Str, (m.filter (fun b => b.link == k)).length ≤ 1) :
    ∀ k : Str, ((dictInsert m a).filter (fun b => b.link == k)).length ≤ 1 := by
  intro k
  rw [dictInsert_filter m a k huniq]
  by_cases hal : a.link = k
  · rw [if_pos hal]
    simp
  · rw [if_neg hal]
    exact huniq k

/-- Folding dict writes over a list of articles: the entries at key `l` are the
last-written article with that link, or whatever the dict already held. -/
lemma foldl_dictInsert_filter (l : Str) :
    ∀ (arts : List Article) (m : List Article),
      (∀ k : Str, (m.filter (fun b => b.link == k)).length ≤ 1) →
      (List.foldl dictInsert m arts).filter (fun b => b.link == l) =
        (arts.reverse.find? (fun b => b.link == l)).elim
          (m.filter (fun b => b.link == l)) (fun a => [a]) := by
  intro arts
  induction arts with
  | nil =>
    intro m _
    rfl
  | cons a t ih =>
    intro m huniq
    simp only [List.foldl_cons, List.reverse_cons, List.find?_append]
    rw [ih (dictInsert m a) (dictInsert_uniq m a huniq)]
    cases hfind : t.reverse.find? (fun b => b.link == l) with
    | some b => rfl
    | none =>
      simp only [Option.none_or]
      rw [dictInsert_filter m a l huniq]
      by_cases hal : a.link = l
      · have : ([a].find? (fun b => b.link == l)) = some a := by
          simp [List.find?, beq_iff_eq.mpr hal]
        rw [if_pos hal, this]
        rfl
      · have : ([a].find? (fun b => b.link == l)) = none := by
          simp [List.find?, beq_eq_false_iff_ne.mpr hal]
        rw [if_neg hal, this]

/-- The nested chunk loop equals one fold over the concatenated chunk results. -/
lemma mergeByLink_eq_foldl_flatten (chunkResults : List (List Article)) :
    mergeByLink chunkResults = List.foldl dictInsert [] chunkResults.flatten := by
  unfold mergeByLink
  rw [List.foldl_flatten]

/-- Claim C6: merging the chunk results keys articles by link with last-write-wins
across (and within) chunks: the merged list's entries at any link `l` are exactly
the singleton holding the last article with link `l` in chunk order (the article
from the latest chunk that returned it), and in particular a link returned by two
overlapping chunks has exactly one merged entry; the entry count at any link never
exceeds one. -/
theorem claim_C6_merge_last_write_wins (chunkResults : List (List Article)) (l : Str) :
    (mergeByLink chunkResults).filter (fun a => a.link == l) =
      (chunkResults.flatten.reverse.find? (fun a => a.link == l)).elim [] (fun a => [a])
    ∧ ((mergeByLink chunkResults).filter (fun a => a.link == l)).length ≤ 1 := by
  have hbase : ∀ k : Str, ((([] : List Article).filter (fun b => b.link == k)).length ≤ 1) := by
    intro k
    simp
  have h := foldl_dictInsert_filter l chunkResults.flatten [] hbase
  rw [mergeByLink_eq_foldl_flatten, h]
  constructor
  · rfl
  · cases chunkResults.flatten.reverse.find? (fun a => a.link == l) with
    | none => simp
    | some a => simp

/-- Claim C9: an iteration of the polling loop invokes the pipeline only if the
freshly reloaded configuration has monitoring enabled and an owner registered
(line 189); when either condition fails the iteration performs no fetch, no
notification and no history mutation — the global state is returned unchanged and
no run happens — and the loop still sleeps the fixed 300-second interval
(line 191). -/
theorem claim_C9_monitor_loop_guard
    (w : World) (now : Int) (fetch : List Str → List Article) (sendOk : ArticleK → Bool)
    (h : ((load_config w).monitoring_on && truthyOpt (load_config w).owner_id) = false) :
    monitorIteration w now fetch sendOk =
      (w, { invoked := false, run := none, sleep := MONITORAMENTO_INTERVAL }) := by
  simp [monitorIteration, h]

/-- Witness for C9 at a concrete input: a valid configuration with monitoring
switched off; the iteration leaves the world untouched, runs nothing, and sleeps
the fixed interval. -/
theorem claim_C9_monitor_loop_guard_witness :
    monitorIteration ⟨.valid ⟨some 1, some 5, [[65]], false, ∅⟩, ∅⟩ 10
        (fun _ => [⟨[65], [76], [83], 9⟩]) (fun _ => true) =
      (⟨.valid ⟨some 1, some 5, [[65]], false, ∅⟩, ∅⟩,
        ⟨false, none, MONITORAMENTO_INTERVAL⟩) :=
  claim_C9_monitor_loop_guard _ _ _ _ (by decide)

/-! ## Lemmas about the shared default history set -/

/-- When `load_config` fell back to the default, the returned owner is unset. -/
lemma load_config_owner_none_of_defaulted (w : World) (hd : loadDefaulted w = true) :
    (load_config w).owner_id = none := by
  cases hw : w.file with
  | valid c => simp [loadDefaulted, hw] at hd
  | missing => simp [load_config, hw]
  | corrupt => simp [load_config, hw]

/-- `start` never touches the shared default history set. -/
lemma opStart_defaultHistory (w : World) (uid cid : Int) :
    (opStart w uid cid).defaultHistory = w.defaultHistory := by
  by_cases hc : truthyOpt (load_config w).owner_id = false <;> simp [opStart, hc]

/-- `definir_grupo` never touches the shared default history set. -/
lemma opDefinirGrupo_defaultHistory (w : World) (uid cid : Int) :
    (opDefinirGrupo w uid cid).defaultHistory = w.defaultHistory := by
  by_cases hc : is_owner uid (load_config w) <;> simp [opDefinirGrupo, hc]

/-- `text_handler` never touches the shared default history set (it only rebinds
`config['keywords']`). -/
lemma opTextHandler_defaultHistory (w : World) (uid : Int) (raw : Str) :
    (opTextHandler w uid raw).defaultHistory = w.defaultHistory := by
  unfold opTextHandler
  cases (textHandler (load_config w) uid raw).saved <;> rfl

/-- The monitoring toggle never touches the shared default history set. -/
lemma opToggleMonitoring_defaultHistory (w : World) (uid : Int) :
    (opToggleMonitoring w uid).defaultHistory = w.defaultHistory := by
  by_cases hc : is_owner uid (load_config w) <;> simp [opToggleMonitoring, hc]

/-- `limpar_tudo` never touches the shared default history set. -/
lemma opLimparTudo_defaultHistory (w : World) (uid : Int) :
    (opLimparTudo w uid).defaultHistory = w.defaultHistory := by
  by_cases hc : is_owner uid (load_config w) <;> simp [opLimparTudo, hc]

/-- `process_news` never mutates the shared default history set: the only in-place
mutation of a history set (line 103) is reached only when the owner guard of
line 82 passed, and a configuration obtained by defaulting has no owner — so the
aliased write-back case never fires. -/
lemma opProcessNews_defaultHistory (w : World) (m : Bool) (cm : Option Int)
    (now : Int) (f : List Str → List Article) (ok : ArticleK → Bool) :
    (opProcessNews w m cm now f ok).defaultHistory = w.defaultHistory := by
  unfold opProcessNews processNewsWorld
  by_cases hd : loadDefaulted w = true
  · have howner : (load_config w).owner_id = none :=
      load_config_owner_none_of_defaulted w hd
    have hsn := processNewsRun_saved_none_of_no_owner (load_config w) m cm now f ok
      (by rw [howner]; rfl)
    simp [hsn]
  · cases hs : (processNewsRun (load_config w) m cm now f ok).savedConfig with
    | none => simp [hs]
    | some c' => simp [hs, hd]

/-- In every reachable state the shared `DEFAULT_CONFIG['history']` set is still
empty: no program operation ever mutates a default-returned history set in place. -/
lemma reachable_defaultHistory_empty (w : World) (h : Reachable w) :
    w.defaultHistory = ∅ := by
  induction h with
  | init => rfl
  | start w uid cid _ ih => rw [opStart_defaultHistory]; exact ih
  | setGroup w uid cid _ ih => rw [opDefinirGrupo_defaultHistory]; exact ih
  | text w uid raw _ ih => rw [opTextHandler_defaultHistory]; exact ih
  | toggle w uid _ ih => rw [opToggleMonitoring_defaultHistory]; exact ih
  | news w m cm now f ok _ ih => rw [opProcessNews_defaultHistory]; exact ih
  | clearAll w uid _ ih => rw [opLimparTudo_defaultHistory]; exact ih
  | fileCorrupts w _ ih => simpa [opCorruptFile] using ih

/-- Claim C5: in every reachable state, whenever the backing file is missing or
corrupt, `load_config` returns the default empty configuration — no owner, no
destination, no keywords, monitoring off, empty history — and (being total, with
the parse failure swallowed at line 39) never raises.  This covers calls made
after earlier operations mutated a previously returned default configuration:
despite the shallow `DEFAULT_CONFIG.copy()` sharing one mutable history set, no
reachable operation sequence ever writes into that shared set. -/
theorem claim_C5_load_config_defaults
    (w : World) (hr : Reachable w) (hd : loadDefaulted w = true) :
    load_config w =
      { owner_id := none, notification_chat_id := none, keywords := [],
        monitoring_on := false, history := (∅ : Finset Str) } := by
  have hemp := reachable_defaultHistory_empty w hr
  cases hw : w.file with
  | valid c => simp [loadDefaulted, hw] at hd
  | missing => simp [load_config, hw, hemp]
  | corrupt => simp [load_config, hw, hemp]

/-- Witness for C5 at a concrete input: starting from process start, the file
becomes corrupt; loading yields the default empty configuration. -/
theorem claim_C5_load_config_defaults_witness :
    load_config ⟨.corrupt, ∅⟩ =
      { owner_id := none, notification_chat_id := none, keywords := [],
        monitoring_on := false, history := (∅ : Finset Str) } :=
  claim_C5_load_config_defaults ⟨.corrupt, ∅⟩
    (Reachable.fileCorrupts _ Reachable.init) rfl

/-- Every kept article's link is in the history of the configuration handed to
`save_config` (shared helper for the persistence claims). -/
lemma processNewsRun_links_recorded (cfg : Config) (m : Bool) (cm : Option Int)
    (now : Int) (f : List Str → List Article) (ok : ArticleK → Bool) :
    (processNewsRun cfg m cm now f ok).newArticles.all
      (fun ak => (processNewsRun cfg m cm now f ok).savedConfig.elim false
        (fun c' => decide (ak.art.link ∈ c'.history))) = true := by
  rcases processNewsRun_cases cfg m cm now f ok with ⟨hn, _, _⟩ | ⟨hn, _, hsave⟩
  · rw [hn]
    rfl
  · rw [hn, hsave, List.all_eq_true]
    intro ak hak
    have pre : ∀ ak ∈ ([] : List ArticleK), ak.art.link ∈ cfg.history := by
      intro ak h
      exact absurd h (List.not_mem_nil ak)
    have inv := filterLoop_inv cfg.keywords (now - (DIAS_FILTRO_NOTICIAS + 1))
      (mergeByLink ((keywordChunks cfg.keywords).map f)) ([], cfg.history) pre
    simpa using inv.2.2 ak hak

/-- No kept article's link was in the loaded history (shared helper for the
dedup claims). -/
lemma processNewsRun_new_not_in_history (cfg : Config) (m : Bool) (cm : Option Int)
    (now : Int) (f : List Str → List Article) (ok : ArticleK → Bool) :
    ∀ ak ∈ (processNewsRun cfg m cm now f ok).newArticles, ak.art.link ∉ cfg.history := by
  rcases processNewsRun_cases cfg m cm now f ok with ⟨hn, _, _⟩ | ⟨hn, _, _⟩
  · rw [hn]
    intro ak hak
    exact absurd hak (List.not_mem_nil ak)
  · rw [hn]
    intro ak hak
    have pre : ∀ ak ∈ ([] : List ArticleK), ak.art.link ∈ cfg.history := by
      intro ak h
      exact absurd h (List.not_mem_nil ak)
    have inv := filterLoop_inv cfg.keywords (now - (DIAS_FILTRO_NOTICIAS + 1))
      (mergeByLink ((keywordChunks cfg.keywords).map f)) ([], cfg.history) pre
    rcases inv.2.1 ak hak with hmem | ⟨hlink, _, _, _⟩
    · exact absurd hmem (List.not_mem_nil ak)
    · exact hlink

/-- Claim C10: in a run where the guards pass but the notification destination is
unset, nothing is sent, yet the configuration is still saved with every new
article's link recorded in history — so any later run whose loaded history
contains those links can never deliver an article with one of them again. -/
theorem claim_C10_unset_destination_still_records_history
    (cfg : Config) (m : Bool) (cm : Option Int) (now : Int)
    (f : List Str → List Article) (ok : ArticleK → Bool)
    (hdest : cfg.notification_chat_id = none)
    (hown : truthyOpt cfg.owner_id = true)
    (hkw : cfg.keywords ≠ [])
    (hmon : cfg.monitoring_on = true ∨ m = true) :
    (processNewsRun cfg m cm now f ok).sentAttempts = []
    ∧ (processNewsRun cfg m cm now f ok).savedConfig.isSome = true
    ∧ (processNewsRun cfg m cm now f ok).newArticles.all
        (fun ak => (processNewsRun cfg m cm now f ok).savedConfig.elim false
          (fun c' => decide (ak.art.link ∈ c'.history))) = true
    ∧ ∀ (cfg2 : Config) (m2 : Bool) (cm2 : Option Int) (now2 : Int)
        (f2 : List Str → List Article) (ok2 : ArticleK → Bool),
        (∀ ak ∈ (processNewsRun cfg m cm now f ok).newArticles,
          ak.art.link ∈ cfg2.history) →
        (processNewsRun cfg2 m2 cm2 now2 f2 ok2).newArticles.filter
          (fun ak2 => (processNewsRun cfg m cm now f ok).newArticles.any
            (fun ak => ak2.art.link == ak.art.link)) = [] := by
  refine ⟨?_, ?_, processNewsRun_links_recorded cfg m cm now f ok, ?_⟩
  · rw [processNewsRun_main cfg m cm now f ok hown hkw hmon]
    simp [hdest, truthyOpt]
  · rw [processNewsRun_main cfg m cm now f ok hown hkw hmon]
    rfl
  · intro cfg2 m2 cm2 now2 f2 ok2 hh
    rw [List.filter_eq_nil_iff]
    intro ak2 hak2 hany
    rcases List.any_eq_true.mp hany with ⟨ak, hak, hbeq⟩
    have hlink : ak2.art.link = ak.art.link := beq_iff_eq.mp hbeq
    have hin : ak2.art.link ∈ cfg2.history := hlink ▸ hh ak hak
    exact processNewsRun_new_not_in_history cfg2 m2 cm2 now2 f2 ok2 ak2 hak2 hin

/-- Witness for C10 at a concrete input: destination unset, one matching article
fetched; nothing is sent, the link `[76]` is persisted, and a later run loading
that history never delivers it again. -/
theorem claim_C10_unset_destination_still_records_history_witness :
    (processNewsRun ⟨some 1, none, [[65]], true, ∅⟩ false none 10
        (fun _ => [⟨[65], [76], [83], 9⟩]) (fun _ => true)).sentAttempts = []
    ∧ (processNewsRun ⟨some 1, none, [[65]], true, ∅⟩ false none 10
        (fun _ => [⟨[65], [76], [83], 9⟩]) (fun _ => true)).savedConfig.isSome = true
    ∧ (processNewsRun ⟨some 1, none, [[65]], true, ∅⟩ false none 10
        (fun _ => [⟨[65], [76], [83], 9⟩]) (fun _ => true)).newArticles.all
        (fun ak => (processNewsRun ⟨some 1, none, [[65]], true, ∅⟩ false none 10
            (fun _ => [⟨[65], [76], [83], 9⟩]) (fun _ => true)).savedConfig.elim false
          (fun c' => decide (ak.art.link ∈ c'.history))) = true
    ∧ (processNewsRun ⟨some 1, some 5, [[65]], true, {[76]}⟩ true (some 7) 20
        (fun _ => [⟨[65], [76], [83], 19⟩]) (fun _ => true)).newArticles.filter
        (fun ak2 => (processNewsRun ⟨some 1, none, [[65]], true, ∅⟩ false none 10
            (fun _ => [⟨[65], [76], [83], 9⟩]) (fun _ => true)).newArticles.any
          (fun ak => ak2.art.link == ak.art.link)) = [] := by
  refine ⟨?_, ?_, ?_, ?_⟩
  · exact (claim_C10_unset_destination_still_records_history
      ⟨some 1, none, [[65]], true, ∅⟩ false none 10
      (fun _ => [⟨[65], [76], [83], 9⟩]) (fun _ => true)
      rfl (by decide) (by decide) (Or.inl rfl)).1
  · exact (claim_C10_unset_destination_still_records_history
      ⟨some 1, none, [[65]], true, ∅⟩ false none 10
      (fun _ => [⟨[65], [76], [83], 9⟩]) (fun _ => true)
      rfl (by decide) (by decide) (Or.inl rfl)).2.1
  · exact (claim_C10_unset_destination_still_records_history
      ⟨some 1, none, [[65]], true, ∅⟩ false none 10
      (fun _ => [⟨[65], [76], [83], 9⟩]) (fun _ => true)
      rfl (by decide) (by decide) (Or.inl rfl)).2.2.1
  · exact (claim_C10_unset_destination_still_records_history
      ⟨some 1, none, [[65]], true, ∅⟩ false none 10
      (fun _ => [⟨[65], [76], [83], 9⟩]) (fun _ => true)
      rfl (by decide) (by decide) (Or.inl rfl)).2.2.2
      ⟨some 1, some 5, [[65]], true, {[76]}⟩ true (some 7) 20
      (fun _ => [⟨[65], [76], [83], 19⟩]) (fun _ => true) (by decide)

/-! ## Lemmas about case normalization and keyword parsing -/

/-- `upper` is idempotent on a code point. -/
lemma upperChar_idem (c : Nat) : upperChar (upperChar c) = upperChar c := by
  by_cases h : 97 ≤ c ∧ c ≤ 122
  · simp only [upperChar, if_pos h]
    rw [if_neg (by omega)]
  · simp [upperChar, h]

/-- On upper-fixed code points, equal lowercasings force equal code points. -/
lemma upperFix_lowerChar_inj {a b : Nat} (ha : upperChar a = a) (hb : upperChar b = b)
    (h : lowerChar a = lowerChar b) : a = b := by
  unfold upperChar at ha hb
  unfold lowerChar at h
  split at ha <;> split at hb <;> split at h <;> split at h <;> omega

/-- A string equals its own uppercasing exactly when every code point is
upper-fixed. -/
lemma upperStr_eq_self_iff {s : Str} :
    upperStr s = s ↔ ∀ c ∈ s, upperChar c = c := by
  unfold upperStr
  induction s with
  | nil => simp
  | cons c t ih =>
    simp only [List.map_cons, List.cons.injEq, List.mem_cons]
    constructor
    · rintro ⟨h1, h2⟩ x hx
      rcases hx with rfl | hx
      · exact h1
      · exact ih.mp h2 x hx
    · intro h
      exact ⟨h c (Or.inl rfl), ih.mpr (fun x hx => h x (Or.inr hx))⟩

/-- On upper-fixed strings, equal lowercasings force equal strings. -/
lemma upperFix_lowerStr_inj :
    ∀ {a b : Str}, (∀ c ∈ a, upperChar c = c) → (∀ c ∈ b, upperChar c = c) →
      lowerStr a = lowerStr b → a = b := by
  intro a
  induction a with
  | nil =>
    intro b _ _ h
    cases b with
    | nil => rfl
    | cons c t => cases h
  | cons c t ih =>
    intro b ha hb h
    cases b with
    | nil => cases h
    | cons d u =>
      simp only [lowerStr, List.map_cons, List.cons.injEq] at h
      have hcd : c = d :=
        upperFix_lowerChar_inj (ha c (List.mem_cons_self c t))
          (hb d (List.mem_cons_self d u)) h.1
      have htu : t = u :=
        ih (fun x hx => ha x (List.mem_cons_of_mem c hx))
          (fun x hx => hb x (List.mem_cons_of_mem d hx))
          (by simpa [lowerStr] using h.2)
      rw [hcd, htu]

/-- Characters of a replacement result come from the replacement or the input. -/
lemma mem_replaceStrAux {pat rep : Str} :
    ∀ (fuel : Nat) (s : Str) (x : Nat), x ∈ replaceStrAux pat rep fuel s →
      x ∈ rep ∨ x ∈ s := by
  intro fuel
  induction fuel with
  | zero =>
    intro s x hx
    cases s with
    | nil => cases hx
    | cons c t => exact Or.inr hx
  | succ n ih =>
    intro s x hx
    cases s with
    | nil => cases hx
    | cons c t =>
      unfold replaceStrAux at hx
      split at hx
      · rcases List.mem_append.mp hx with hrep | hrec
        · exact Or.inl hrep
        · rcases ih _ x hrec with hrep | hdrop
          · exact Or.inl hrep
          · exact Or.inr (List.mem_of_mem_drop hdrop)
      · rcases List.mem_cons.mp hx with rfl | hrec
        · exact Or.inr (List.mem_cons_self x t)
        · rcases ih t x hrec with hrep | ht
          · exact Or.inl hrep
          · exact Or.inr (List.mem_cons_of_mem c ht)

/-- Characters of a replacement result come from the replacement or the input. -/
lemma mem_replaceStr {pat rep s : Str} {x : Nat} (hx : x ∈ replaceStr pat rep s) :
    x ∈ rep ∨ x ∈ s :=
  mem_replaceStrAux s.length s x hx

/-- Characters of any split piece come from the split string. -/
lemma mem_splitChar {sep : Nat} :
    ∀ (s : Str) (p : Str), p ∈ splitChar sep s → ∀ x ∈ p, x ∈ s := by
  intro s
  induction s with
  | nil =>
    intro p hp x hx
    simp only [splitChar, List.mem_singleton] at hp
    rw [hp] at hx
    cases hx
  | cons c t ih =>
    intro p hp x hx
    unfold splitChar at hp
    by_cases hc : c = sep
    · rw [if_pos hc] at hp
      rcases List.mem_cons.mp hp with rfl | hp'
      · cases hx
      · exact List.mem_cons_of_mem c (ih p hp' x hx)
    · rw [if_neg hc] at hp
      cases hr : splitChar sep t with
      | nil =>
        rw [hr] at hp
        simp only [List.mem_singleton] at hp
        rw [hp] at hx
        exact List.mem_cons.mpr (Or.inl (by simpa using hx))
      | cons h tl =>
        rw [hr] at hp
        rcases List.mem_cons.mp hp with rfl | hp'
        · rcases List.mem_cons.mp hx with rfl | hx'
          · exact List.mem_cons_self x t
          · refine List.mem_cons_of_mem c (ih h ?_ x hx')
            rw [hr]
            exact List.mem_cons_self h tl
        · refine List.mem_cons_of_mem c (ih p ?_ x hx)
          rw [hr]
          exact List.mem_cons_of_mem h hp'

/-- Characters survive `strip` only if they were in the string. -/
lemma mem_pyStrip {s : Str} {x : Nat} (hx : x ∈ pyStrip s) : x ∈ s := by
  unfold pyStrip at hx
  rw [List.mem_reverse] at hx
  have h1 := List.Sublist.mem hx (List.dropWhile_sublist isPySpace)
  rw [List.mem_reverse] at h1
  exact List.Sublist.mem h1 (List.dropWhile_sublist isPySpace)

/-- Every keyword produced by the parsing pipeline of lines 224-225 is
upper-fixed: the text is uppercased first, and every later stage only keeps or
inserts upper-fixed characters. -/
lemma parseItems_upperFix (text : Str) :
    ∀ k ∈ parseItems text, ∀ c ∈ k, upperChar c = c := by
  intro k hk c hc
  unfold parseItems at hk
  rw [(List.perm_insertionSort _ _).mem_iff] at hk
  rcases List.mem_filter.mp hk with ⟨hk', _⟩
  rcases List.mem_map.mp hk' with ⟨k0, hk0, rfl⟩
  have hc0 : c ∈ k0 := mem_pyStrip hc
  have hcs := mem_splitChar _ k0 hk0 c hc0
  rcases mem_replaceStr hcs with h44 | hcs1
  · simp only [List.mem_singleton] at h44
    rw [h44]
    rfl
  · rcases mem_replaceStr hcs1 with h44 | hup
    · simp only [List.mem_singleton] at h44
      rw [h44]
      rfl
    · rcases List.mem_map.mp hup with ⟨c0, _, rfl⟩
      exact upperChar_idem c0

/-- `sorted(list(s))` is sorted. -/
lemma sortedList_sorted (s : Finset Str) : List.Sorted (· ≤ ·) (sortedList s) := by
  rcases s with ⟨val, hnd⟩
  induction val using Quotient.inductionOn with
  | h l => exact List.sorted_insertionSort _ _

/-- `sorted(list(s))` has no duplicates. -/
lemma sortedList_nodup (s : Finset Str) : (sortedList s).Nodup := by
  rcases s with ⟨val, hnd⟩
  induction val using Quotient.inductionOn with
  | h l =>
    exact (List.perm_insertionSort (· ≤ ·) l).symm.nodup (by simpa using hnd)

/-- `sorted(list(s))` has exactly the elements of the set. -/
lemma mem_sortedList {a : Str} {s : Finset Str} : a ∈ sortedList s ↔ a ∈ s := by
  rcases s with ⟨val, hnd⟩
  induction val using Quotient.inductionOn with
  | h l =>
    have hrfl : sortedList ⟨⟦l⟧, hnd⟩ = List.insertionSort (· ≤ ·) l := rfl
    rw [hrfl, (List.perm_insertionSort (· ≤ ·) l).mem_iff]
    simp [Finset.mem_mk, Multiset.quot_mk_to_coe]

/-- Whenever `text_handler` saves, the saved keyword list is `sorted(list(s))` of a
set `s` whose elements are old keywords or freshly parsed items. -/
lemma textHandler_saved_keywords (cfg : Config) (uid : Int) (raw : Str) (c' : Config)
    (hs : (textHandler cfg uid raw).saved = some c') :
    ∃ s : Finset Str, c'.keywords = sortedList s ∧
      ∀ k ∈ s, k ∈ cfg.keywords ∨ k ∈ parseItems (pyStrip raw) := by
  unfold textHandler at hs
  split at hs
  · simp at hs
  · cases htext : pyStrip raw with
    | nil =>
      rw [htext] at hs
      simp at hs
    | cons c rest =>
      rw [htext] at hs
      simp only [] at hs
      split at hs
      · simp at hs
      · split at hs
        · simp at hs
        · split at hs
          · split at hs
            · simp only [Option.some.injEq] at hs
              refine ⟨cfg.keywords.toFinset ∪
                ((parseItems (c :: rest)).filter
                  (fun k => k ∉ cfg.keywords.toFinset)).toFinset, ?_, ?_⟩
              · rw [← hs]
              · intro k hk
                rcases Finset.mem_union.mp hk with hk | hk
                · exact Or.inl (List.mem_toFinset.mp hk)
                · exact Or.inr (List.mem_of_mem_filter (List.mem_toFinset.mp hk))
            · simp at hs
          · split at hs
            · simp only [Option.some.injEq] at hs
              refine ⟨cfg.keywords.toFinset \
                (cfg.keywords.toFinset.filter
                  (fun k => lowerStr k ∈ (parseItems (c :: rest)).map lowerStr)), ?_, ?_⟩
              · rw [← hs]
              · intro k hk
                exact Or.inl (List.mem_toFinset.mp (Finset.mem_sdiff.mp hk).1)
            · simp at hs

/-- Claim C7: after every keyword-mutating save performed by `text_handler`
(bulk add via `@`, bulk remove via `#`), the persisted keyword list is sorted,
duplicate-free, and contains only uppercase-normalized strings (assuming the
previously stored keywords were normalized, as they always are — they start empty
and every save goes through this handler). -/
theorem claim_C7_keywords_sorted_dedup_uppercase
    (cfg : Config) (uid : Int) (raw : Str) (c' : Config)
    (hup : cfg.keywords.all (fun k => upperStr k == k) = true)
    (hs : (textHandler cfg uid raw).saved = some c') :
    List.Sorted (· ≤ ·) c'.keywords ∧ c'.keywords.Nodup
    ∧ c'.keywords.all (fun k => upperStr k == k) = true := by
  rcases textHandler_saved_keywords cfg uid raw c' hs with ⟨s, hk, hmem⟩
  rw [hk]
  refine ⟨sortedList_sorted s, sortedList_nodup s, ?_⟩
  rw [List.all_eq_true]
  intro k hks
  rw [beq_iff_eq]
  rcases hmem k (mem_sortedList.mp hks) with hold | hnew
  · have := List.all_eq_true.mp hup k hold
    rwa [beq_iff_eq] at this
  · exact upperStr_eq_self_iff.mpr (parseItems_upperFix (pyStrip raw) k hnew)

/-- Witness for C7 at a concrete input: adding `"a"` (`[97]`) to the stored
keyword `"B"` (`[66]`) saves the sorted, deduplicated, uppercased list
`["A", "B"]`. -/
theorem claim_C7_keywords_sorted_dedup_uppercase_witness :
    List.Sorted (· ≤ ·)
      (⟨some 1, none, [[65], [66]], false, (∅ : Finset Str)⟩ : Config).keywords
    ∧ (⟨some 1, none, [[65], [66]], false, (∅ : Finset Str)⟩ : Config).keywords.Nodup
    ∧ (⟨some 1, none, [[65], [66]], false, (∅ : Finset Str)⟩ : Config).keywords.all
        (fun k => upperStr k == k) = true :=
  claim_C7_keywords_sorted_dedup_uppercase
    ⟨some 1, none, [[66]], false, ∅⟩ 1 [64, 97]
    ⟨some 1, none, [[65], [66]], false, ∅⟩ (by decide) (by decide)

/-- Claim C8: adding keywords that are all already present (compared
case-insensitively, with the stored keywords uppercase-normalized as they always
are) is a no-op — nothing is saved and the reply is the "nothing new to add"
message of line 231; removing keywords none of which is present
(case-insensitively) is likewise a no-op with the "nothing found" message of
line 235. -/
theorem claim_C8_noop_add_remove
    (cfgA : Config) (uidA : Int) (rawA : Str) (restA : Str)
    (cfgR : Config) (uidR : Int) (rawR : Str) (restR : Str)
    (hownA : cfgA.owner_id = some uidA)
    (hstripA : pyStrip rawA = 64 :: restA)
    (hitemsA : parseItems (64 :: restA) ≠ [])
    (hupA : cfgA.keywords.all (fun k => upperStr k == k) = true)
    (hpresA : (parseItems (64 :: restA)).all
      (fun k => cfgA.keywords.any (fun k2 => lowerStr k2 == lowerStr k)) = true)
    (hownR : cfgR.owner_id = some uidR)
    (hstripR : pyStrip rawR = 35 :: restR)
    (hitemsR : parseItems (35 :: restR) ≠ [])
    (habsR : cfgR.keywords.all
      (fun k => !(parseItems (35 :: restR)).any (fun k2 => lowerStr k2 == lowerStr k)) = true) :
    textHandler cfgA uidA rawA = ⟨none, some .nothingNew⟩
    ∧ textHandler cfgR uidR rawR = ⟨none, some .nothingFound⟩ := by
  constructor
  · have hkmem : ∀ k ∈ parseItems (64 :: restA), k ∈ cfgA.keywords := by
      intro k hk
      have hp := List.all_eq_true.mp hpresA k hk
      rcases List.any_eq_true.mp hp with ⟨k2, hk2, hbeq⟩
      have hlow : lowerStr k2 = lowerStr k := beq_iff_eq.mp hbeq
      have hk2up : ∀ c ∈ k2, upperChar c = c :=
        upperStr_eq_self_iff.mp (beq_iff_eq.mp (List.all_eq_true.mp hupA k2 hk2))
      have hkup : ∀ c ∈ k, upperChar c = c := parseItems_upperFix _ k hk
      have heq : k2 = k := upperFix_lowerStr_inj hk2up hkup hlow
      rwa [heq] at hk2
    have hadd : (parseItems (64 :: restA)).filter
        (fun k => k ∉ cfgA.keywords.toFinset) = [] := by
      rw [List.filter_eq_nil_iff]
      intro k hk
      simp only [decide_eq_true_eq, not_not]
      exact List.mem_toFinset.mpr (hkmem k hk)
    unfold textHandler
    rw [if_neg (by simp [hownA]), hstripA]
    simp only []
    rw [if_neg (show ¬ ((64 : Nat) ≠ 64 ∧ (64 : Nat) ≠ 35) by simp), if_neg hitemsA, hadd]
    simp
  · have hrem : cfgR.keywords.toFinset.filter
        (fun k => lowerStr k ∈ (parseItems (35 :: restR)).map lowerStr) = ∅ := by
      rw [Finset.filter_eq_empty_iff]
      intro k hk
      have hab := List.all_eq_true.mp habsR k (List.mem_toFinset.mp hk)
      rw [Bool.not_eq_true'] at hab
      intro hmem
      rcases List.mem_map.mp hmem with ⟨k2, hk2, hlow⟩
      have : (parseItems (35 :: restR)).any (fun k2 => lowerStr k2 == lowerStr k) = true :=
        List.any_eq_true.mpr ⟨k2, hk2, beq_iff_eq.mpr hlow⟩
      rw [this] at hab
      cases hab
    unfold textHandler
    rw [if_neg (by simp [hownR]), hstripR]
    simp only []
    rw [if_neg (show ¬ ((35 : Nat) ≠ 64 ∧ (35 : Nat) ≠ 35) by simp), if_neg hitemsR, hrem]
    simp

/-- Witness for C8 at concrete inputs: with stored keywords `["A"]`, the message
`"@a"` adds nothing (case-insensitive duplicate) and `"#B"` removes nothing. -/
theorem claim_C8_noop_add_remove_witness :
    textHandler ⟨some 1, none, [[65]], false, ∅⟩ 1 [64, 97] = ⟨none, some .nothingNew⟩
    ∧ textHandler ⟨some 1, none, [[65]], false, ∅⟩ 1 [35, 66] = ⟨none, some .nothingFound⟩ := by
  refine ⟨?_, ?_⟩
  · exact (claim_C8_noop_add_remove ⟨some 1, none, [[65]], false, ∅⟩ 1 [64, 97] [97]
      ⟨some 1, none, [[65]], false, ∅⟩ 1 [35, 66] [66]
      rfl (by decide) (by decide) (by decide) (by decide)
      rfl (by decide) (by decide) (by decide)).1
  · exact (claim_C8_noop_add_remove ⟨some 1, none, [[65]], false, ∅⟩ 1 [64, 97] [97]
      ⟨some 1, none, [[65]], false, ∅⟩ 1 [35, 66] [66]
      rfl (by decide) (by decide) (by decide) (by decide)
      rfl (by decide) (by decide) (by decide)).2
